import Mathlib

/-!
Shallow embedding of `src/mve.py`: a minimal variational quantum eigensolver
for H2.  The script loads a 4-qubit molecular Hamiltonian and a Hartree-Fock
occupation bitstring from an external dataset, defines a circuit that prepares
the reference basis state, applies one `qml.DoubleExcitation` gate on wires
[0, 1, 2, 3] and returns the Hamiltonian expectation value, and then runs 100
SGD steps on the single angle `theta`.

The Hamiltonian is external data, so it is kept abstract (an arbitrary
16 × 16 complex matrix) throughout; every property proved here holds for any
Hamiltonian the dataset could supply.  The quantum-simulation and optimizer
library calls are embedded by their documented semantics: `BasisState` and
`DoubleExcitation` by PennyLane's documented action on statevectors, and
`optax.sgd` / `optax.apply_updates` by optax's documented plain-SGD rule.
The gradient call `jax.grad(circuit_2)(h2.hf_state, theta)` is embedded by
jax's documented contract: `jax.grad` differentiates with respect to
positional argument 0 by default and rejects an integer-dtyped input with a
TypeError, so the loop body raises during its first iteration; `runE` is the
loop with this faithful raising body, while `runFrom` is the idealized total
body kept for the properties that hold regardless of the raise.
-/

namespace Vqeac

/-- A 4-qubit statevector: 16 complex amplitudes.  Basis indices use
PennyLane wire ordering: wire 0 is the most significant bit of the index. -/
abbrev QVec : Type := Fin 16 → ℂ

/-- A 4-qubit operator (the molecular Hamiltonian, or a gate matrix). -/
abbrev Ham : Type := Matrix (Fin 16) (Fin 16) ℂ

/-- Basis index of the computational basis state whose qubit `q` is in state
`s q` (wire 0 most significant, PennyLane ordering). -/
def encodeBits (s : Fin 4 → Bool) : Fin 16 :=
  ⟨8 * (s 0).toNat + 4 * (s 1).toNat + 2 * (s 2).toNat + (s 3).toNat, by
    have h0 : (s 0).toNat ≤ 1 := by cases s 0 <;> decide
    have h1 : (s 1).toNat ≤ 1 := by cases s 1 <;> decide
    have h2 : (s 2).toNat ≤ 1 := by cases s 2 <;> decide
    have h3 : (s 3).toNat ≤ 1 := by cases s 3 <;> decide
    omega⟩

/-- `qml.BasisState(state, wires=range(qubits))` (src/mve.py, line 25): the
statevector of the computational basis state with qubit `i` in `|1⟩` iff bit
`i` of `state` is 1. -/
def basisVec (s : Fin 4 → Bool) : QVec :=
  fun i => if i = encodeBits s then 1 else 0

/-- `qml.DoubleExcitation(param, wires=[0,1,2,3])` (src/mve.py, line 26),
embedded by PennyLane's documented action on the statevector:
`|0011⟩ ↦ cos(φ/2)|0011⟩ + sin(φ/2)|1100⟩`,
`|1100⟩ ↦ cos(φ/2)|1100⟩ − sin(φ/2)|0011⟩`, identity on every other basis
state.  With wire 0 as most significant bit, `|0011⟩` is index 3 and
`|1100⟩` is index 12. -/
noncomputable def doubleExcitation (phi : ℝ) (ψ : QVec) : QVec :=
  fun i =>
    if i = (3 : Fin 16) then
      (Real.cos (phi / 2) : ℂ) * ψ 3 - (Real.sin (phi / 2) : ℂ) * ψ 12
    else if i = (12 : Fin 16) then
      (Real.sin (phi / 2) : ℂ) * ψ 3 + (Real.cos (phi / 2) : ℂ) * ψ 12
    else ψ i

/-- `qml.expval(H)`: the expectation value `⟨ψ|H|ψ⟩` of the Hamiltonian in
state `ψ` (its real part; for a Hermitian `H` the inner product is real). -/
noncomputable def expval (H : Ham) (ψ : QVec) : ℝ :=
  (Matrix.dotProduct (star ψ) (H.mulVec ψ)).re

/-- `circuit_2` (src/mve.py, lines 23-27): prepare the basis state given by
`state`, apply one double-excitation gate with angle `param` on wires
[0, 1, 2, 3], and return the expectation value of the Hamiltonian.  The
Hamiltonian `H` is the externally loaded dataset Hamiltonian, kept abstract. -/
noncomputable def circuit_2 (H : Ham) (state : Fin 4 → Bool) (param : ℝ) : ℝ :=
  expval H (doubleExcitation param (basisVec state))

/-- Modelled from the spec: the dataset value `h2.hf_state`, the Hartree-Fock
occupation bitstring for H2/STO-3G (two electrons filling the two lowest
spin-orbitals): qubits 0 and 1 occupied, qubits 2 and 3 empty. -/
def hf : Fin 4 → Bool := ![true, true, false, false]

/-- The state preparation exactly as the spec words it ("qubit `i` set to
`|1⟩` iff bit `i` of `reference_state` is 1, else `|0⟩`"): amplitude 1 on the
basis index whose every qubit `q` reads `ref q` (qubit `q` is bit `3 - q` of
the index, wire 0 most significant), amplitude 0 elsewhere.  Spec-side
definition, used only to compare against `basisVec`. -/
def basisVecSpec (ref : Fin 4 → Bool) : QVec :=
  fun i =>
    if ∀ q : Fin 4, Nat.testBit (i : ℕ) (3 - (q : ℕ)) = ref q then 1 else 0

/-- The double-excitation gate as the spec words it: a single parametrized
unitary on qubits [0, 1, 2, 3], given here by its 16 × 16 matrix (PennyLane's
documented matrix: a Givens rotation by `phi/2` in the plane spanned by the
basis states 3 = `|0011⟩` and 12 = `|1100⟩`, identity elsewhere).  Spec-side
definition, used only to compare against `doubleExcitation`. -/
noncomputable def doubleExcitationMatrix (phi : ℝ) : Ham :=
  fun i j =>
    if i = (3 : Fin 16) ∧ j = (3 : Fin 16) then (Real.cos (phi / 2) : ℂ)
    else if i = (3 : Fin 16) ∧ j = (12 : Fin 16) then -(Real.sin (phi / 2) : ℂ)
    else if i = (12 : Fin 16) ∧ j = (3 : Fin 16) then (Real.sin (phi / 2) : ℂ)
    else if i = (12 : Fin 16) ∧ j = (12 : Fin 16) then (Real.cos (phi / 2) : ℂ)
    else if i = j then 1 else 0

/-- The circuit evaluator as the spec words it (spec §4.2): prepare the basis
state described by the reference bit vector, apply the double-excitation gate
matrix to the statevector, and return `⟨ψ(theta)|H|ψ(theta)⟩`.  Spec-side
definition, used only to compare against `circuit_2`. -/
noncomputable def evaluateSpec (H : Ham) (ref : Fin 4 → Bool) (theta : ℝ) : ℝ :=
  (Matrix.dotProduct
      (star ((doubleExcitationMatrix theta).mulVec (basisVecSpec ref)))
      (H.mulVec ((doubleExcitationMatrix theta).mulVec (basisVecSpec ref)))).re

/-- `max_iterations = 100` (src/mve.py, line 29). -/
def max_iterations : ℕ := 100

/-- `conv_tol = 1e-06` (src/mve.py, line 30).  The constant is defined by the
script but read nowhere in the loop. -/
noncomputable def conv_tol : ℝ := 1e-06

/-- The learning rate `0.4` passed to `optax.sgd` (src/mve.py, line 31). -/
noncomputable def learning_rate : ℝ := 0.4

/-- `opt.init(theta)` for `opt = optax.sgd(learning_rate=0.4)`, embedded by
optax's documented semantics: plain SGD without momentum carries no optimizer
state, so `init` returns the empty state. -/
def sgd_init (_theta : ℝ) : Unit := ()

/-- `opt.update(gradient, opt_state)` for plain SGD, embedded by optax's
documented semantics: the update is `-learning_rate * gradient` and the
(empty) optimizer state is returned unchanged. -/
noncomputable def sgd_update (gradient : ℝ) (s : Unit) : ℝ × Unit :=
  (-(learning_rate * gradient), s)

/-- `optax.apply_updates(theta, updates)` (src/mve.py, line 40), embedded by
optax's documented semantics: parameters plus updates. -/
noncomputable def apply_updates (theta updates : ℝ) : ℝ := theta + updates

/-- The script's module-level state: the loaded Hamiltonian, qubit count and
Hartree-Fock bitstring (src/mve.py, lines 9-16), and the loop variables
`theta`, `opt_state` and the list `angle` (lines 32-34). -/
structure ProgState where
  H : Ham
  qubits : ℕ
  hf_state : Fin 4 → Bool
  theta : ℝ
  opt_state : Unit
  angle : List ℝ

/-- The state after the loading and setup lines (src/mve.py, lines 9-34):
`theta = 0.0`, `angle = [theta]`, `opt_state = opt.init(theta)`.  The loaded
Hamiltonian and reference bitstring are abstract parameters (external data);
the dataset yields 4 qubits, the wire count of the H2/STO-3G Hamiltonian. -/
def initState (H0 : Ham) (hf0 : Fin 4 → Bool) : ProgState :=
  { H := H0
    qubits := 4
    hf_state := hf0
    theta := 0
    opt_state := sgd_init 0
    angle := [0] }

/-- The loop body (src/mve.py, lines 36-40) idealized as total: what the
body would do if the gradient call returned some value `gradFn theta`.  In
the program the call raises before returning (see `loopBodyE`, the faithful
model); this total version is kept only for the properties that are
insensitive to whether the body completes or raises -- determinism of the
procedure and the never-touched `angle` list. -/
noncomputable def loopStep (gradFn : ℝ → ℝ) (s : ProgState) : ProgState :=
  let gradient := gradFn s.theta
  let u := sgd_update gradient s.opt_state
  { s with theta := apply_updates s.theta u.1, opt_state := u.2 }

/-- The loop run for `n` iterations from an arbitrary starting state. -/
noncomputable def runFrom (gradFn : ℝ → ℝ) (s : ProgState) : ℕ → ProgState
  | 0 => s
  | n + 1 => loopStep gradFn (runFrom gradFn s n)

/-- The program state after `n` iterations of the loop, starting from the
script's initial state. -/
noncomputable def runFor (H0 : Ham) (hf0 : Fin 4 → Bool) (gradFn : ℝ → ℝ)
    (n : ℕ) : ProgState :=
  runFrom gradFn (initState H0 hf0) n

/-- The jax array dtype of a value at the gradient call site, as the input
check of `jax.grad` sees it: integer dtypes are rejected, floating dtypes
accepted. -/
inductive JaxDType where
  | intD
  | floatD

/-- The TypeError message `jax.grad` raises on an integer-dtyped
differentiated input. -/
def typeErrorMsg : String := "TypeError: grad requires real- or complex-valued inputs"

/-- Modelled from jax's documented contract: `jax.grad(f)` differentiates
with respect to positional argument `argnums`, which defaults to 0, and the
function it returns checks that argument's dtype first, raising a TypeError
for an integer input before any differentiation happens. -/
def jaxGradInputCheck (dtypeArg0 : JaxDType) : Except String Unit :=
  match dtypeArg0 with
  | JaxDType.floatD => Except.ok ()
  | JaxDType.intD => Except.error typeErrorMsg

/-- The dtype of `h2.hf_state`, the first positional argument at the call
site `jax.grad(circuit_2)(h2.hf_state, theta)` (src/mve.py, line 38): the
Hartree-Fock occupation bitstring is an integer array. -/
def hf_state_dtype : JaxDType := JaxDType.intD

/-- The loop body (src/mve.py, lines 36-40) modelled faithfully:
`jax.grad(circuit_2)` differentiates its first positional argument
`h2.hf_state` (default `argnums = 0`), whose dtype is integer, so the input
check raises before a gradient value, the optax update or
`optax.apply_updates` can run.  `gradFn` abstracts the value the call would
return had the check passed; that branch is unreachable at this call
site. -/
noncomputable def loopBodyE (gradFn : ℝ → ℝ) (s : ProgState) :
    Except String ProgState :=
  match jaxGradInputCheck hf_state_dtype with
  | Except.error e => Except.error e
  | Except.ok _ =>
      let gradient := gradFn s.theta
      let u := sgd_update gradient s.opt_state
      Except.ok { s with theta := apply_updates s.theta u.1, opt_state := u.2 }

/-- The loop `for n in range(max_iterations)` with the faithful body: an
iteration runs only if no earlier iteration raised, and a raise ends the
whole run with that exception. -/
noncomputable def runE (gradFn : ℝ → ℝ) (s : ProgState) :
    ℕ → Except String ProgState
  | 0 => Except.ok s
  | n + 1 =>
      match runE gradFn s n with
      | Except.error e => Except.error e
      | Except.ok t => loopBodyE gradFn t

/-- The states after each completed iteration of the faithfully modelled
loop: iteration `n` contributes an entry iff its body ran to the end without
raising. -/
noncomputable def completedTrace (H0 : Ham) (hf0 : Fin 4 → Bool)
    (gradFn : ℝ → ℝ) : List ProgState :=
  (List.range max_iterations).filterMap
    (fun n => (runE gradFn (initState H0 hf0) (n + 1)).toOption)

/-- The whole faithfully modelled run: the loop attempted for the full
`max_iterations` budget from the script's initial state.  The `conv_tol`
constant is in scope when the loop runs but is never read, so it is taken as
an explicit parameter the result cannot depend on. -/
noncomputable def programRunE (_tol : ℝ) (H0 : Ham) (hf0 : Fin 4 → Bool)
    (gradFn : ℝ → ℝ) : Except String ProgState :=
  runE gradFn (initState H0 hf0) max_iterations

lemma encodeBits_hf : encodeBits hf = (12 : Fin 16) := by decide

lemma doubleExcitation_zero (ψ : QVec) : doubleExcitation 0 ψ = ψ := by
  funext i
  unfold doubleExcitation
  split_ifs with h3 h12
  · subst h3; simp
  · subst h12; simp
  · rfl

lemma basisVec_cond : ∀ (ref : Fin 4 → Bool) (i : Fin 16),
    (i = encodeBits ref) ↔
      (∀ q : Fin 4, Nat.testBit (i : ℕ) (3 - (q : ℕ)) = ref q) := by
  decide

lemma basisVec_eq_spec (ref : Fin 4 → Bool) : basisVec ref = basisVecSpec ref := by
  funext i
  unfold basisVec basisVecSpec
  simp only [basisVec_cond]

lemma basisVec_apply_ne (ref : Fin 4 → Bool) (i : Fin 16)
    (h : i ≠ encodeBits ref) : basisVec ref i = 0 := if_neg h

lemma doubleExcitationMatrix_mulVec (phi : ℝ) (ψ : QVec) :
    (doubleExcitationMatrix phi).mulVec ψ = doubleExcitation phi ψ := by
  funext i
  have hmv : (doubleExcitationMatrix phi).mulVec ψ i
      = ∑ j : Fin 16, doubleExcitationMatrix phi i j * ψ j := rfl
  rw [hmv]
  unfold doubleExcitation
  by_cases hi3 : i = (3 : Fin 16)
  · subst hi3
    have hterm : ∀ j : Fin 16, doubleExcitationMatrix phi 3 j * ψ j
        = (if j = (3 : Fin 16) then (Real.cos (phi / 2) : ℂ) * ψ j else 0)
          + (if j = (12 : Fin 16) then -((Real.sin (phi / 2) : ℂ) * ψ j) else 0) := by
      intro j
      by_cases hj3 : j = (3 : Fin 16)
      · subst hj3; simp [doubleExcitationMatrix]
      · by_cases hj12 : j = (12 : Fin 16)
        · subst hj12; simp [doubleExcitationMatrix]
        · simp [doubleExcitationMatrix, hj3, hj12, Ne.symm hj3]
    rw [Finset.sum_congr rfl (fun j _ => hterm j), Finset.sum_add_distrib]
    simp [Finset.sum_ite_eq']
    ring
  · by_cases hi12 : i = (12 : Fin 16)
    · subst hi12
      have hterm : ∀ j : Fin 16, doubleExcitationMatrix phi 12 j * ψ j
          = (if j = (3 : Fin 16) then (Real.sin (phi / 2) : ℂ) * ψ j else 0)
            + (if j = (12 : Fin 16) then (Real.cos (phi / 2) : ℂ) * ψ j else 0) := by
        intro j
        by_cases hj3 : j = (3 : Fin 16)
        · subst hj3; simp [doubleExcitationMatrix]
        · by_cases hj12 : j = (12 : Fin 16)
          · subst hj12; simp [doubleExcitationMatrix]
          · simp [doubleExcitationMatrix, hj3, hj12, Ne.symm hj12]
      rw [Finset.sum_congr rfl (fun j _ => hterm j), Finset.sum_add_distrib]
      simp [Finset.sum_ite_eq', hi3]
    · have hterm : ∀ j : Fin 16, doubleExcitationMatrix phi i j * ψ j
          = if i = j then ψ j else 0 := by
        intro j
        by_cases hij : i = j
        · subst hij; simp [doubleExcitationMatrix, hi3, hi12]
        · simp [doubleExcitationMatrix, hij, hi3, hi12]
      rw [Finset.sum_congr rfl (fun j _ => hterm j)]
      simp [Finset.sum_ite_eq, hi3, hi12]

lemma expval_neg (H : Ham) (ψ : QVec) : expval H (-ψ) = expval H ψ := by
  unfold expval
  simp [Matrix.mulVec_neg, Matrix.neg_dotProduct, Matrix.dotProduct_neg]

lemma doubleExcitation_basis_fixed (ref : Fin 4 → Bool)
    (h3 : encodeBits ref ≠ (3 : Fin 16)) (h12 : encodeBits ref ≠ (12 : Fin 16))
    (phi : ℝ) : doubleExcitation phi (basisVec ref) = basisVec ref := by
  funext i
  unfold doubleExcitation
  split_ifs with hi3 hi12
  · subst hi3
    rw [basisVec_apply_ne ref 3 (Ne.symm h3), basisVec_apply_ne ref 12 (Ne.symm h12)]
    simp
  · subst hi12
    rw [basisVec_apply_ne ref 3 (Ne.symm h3), basisVec_apply_ne ref 12 (Ne.symm h12)]
    simp
  · rfl

lemma doubleExcitation_basis_period (ref : Fin 4 → Bool)
    (h : encodeBits ref = (3 : Fin 16) ∨ encodeBits ref = (12 : Fin 16))
    (phi : ℝ) :
    doubleExcitation (phi + 2 * Real.pi) (basisVec ref)
      = -(doubleExcitation phi (basisVec ref)) := by
  have hdiv : (phi + 2 * Real.pi) / 2 = phi / 2 + Real.pi := by ring
  funext i
  rw [Pi.neg_apply]
  unfold doubleExcitation
  split_ifs with hi3 hi12
  · rw [hdiv]
    simp only [Real.cos_add, Real.sin_add, Real.cos_pi, Real.sin_pi]
    push_cast
    ring
  · rw [hdiv]
    simp only [Real.cos_add, Real.sin_add, Real.cos_pi, Real.sin_pi]
    push_cast
    ring
  · have hne : i ≠ encodeBits ref := by
      rcases h with h | h <;> rw [h] <;> assumption
    rw [basisVec_apply_ne ref i hne]
    simp

lemma circuit_2_periodic (H : Ham) (ref : Fin 4 → Bool) (theta : ℝ) :
    circuit_2 H ref (theta + 2 * Real.pi) = circuit_2 H ref theta := by
  unfold circuit_2
  by_cases h3 : encodeBits ref = (3 : Fin 16)
  · rw [doubleExcitation_basis_period ref (Or.inl h3), expval_neg]
  · by_cases h12 : encodeBits ref = (12 : Fin 16)
    · rw [doubleExcitation_basis_period ref (Or.inr h12), expval_neg]
    · rw [doubleExcitation_basis_fixed ref h3 h12,
        doubleExcitation_basis_fixed ref h3 h12]

lemma doubleExcitation_two_pi_hf :
    doubleExcitation (2 * Real.pi) (basisVec hf) = -(basisVec hf) := by
  have h := doubleExcitation_basis_period hf (Or.inr encodeBits_hf) 0
  rw [zero_add, doubleExcitation_zero] at h
  exact h

/-- C4: for every Hamiltonian, reference bit vector and real theta, the
circuit evaluator does exactly what the spec describes: it prepares the
4-qubit basis state with qubit `i` in `|1⟩` iff bit `i` of the reference
vector is 1, applies exactly one parametrized double-excitation gate (as a
unitary matrix) on qubits [0, 1, 2, 3] with angle theta, and returns the
Hamiltonian expectation value `⟨ψ(theta)|H|ψ(theta)⟩` in the resulting
state. -/
theorem circuit_2_matches_spec (H : Ham) (ref : Fin 4 → Bool) (theta : ℝ) :
    circuit_2 H ref theta = evaluateSpec H ref theta := by
  unfold circuit_2 evaluateSpec expval
  rw [← basisVec_eq_spec, doubleExcitationMatrix_mulVec]

/-- C7 counterexample: at `theta = π` the double-excitation gate does not
return the prepared Hartree-Fock state to a sign-adjusted copy of itself --
it maps it to minus the doubly-excited configuration, orthogonal to the
original one. -/
theorem gate_pi_not_sign_copy :
    ¬ (doubleExcitation Real.pi (basisVec hf) = basisVec hf ∨
       doubleExcitation Real.pi (basisVec hf) = -(basisVec hf)) := by
  have h0 : doubleExcitation Real.pi (basisVec hf) 12 = 0 := by
    unfold doubleExcitation
    rw [if_neg (show (12 : Fin 16) ≠ 3 by decide), if_pos rfl,
      basisVec_apply_ne hf 3 (by rw [encodeBits_hf]; decide)]
    simp [Real.cos_pi_div_two]
  have hb : basisVec hf 12 = 1 := by
    unfold basisVec
    rw [encodeBits_hf]
    simp
  rintro (h | h)
  · have h12 := congrFun h 12
    rw [h0, hb] at h12
    exact zero_ne_one h12
  · have h12 := congrFun h 12
    rw [h0, Pi.neg_apply, hb] at h12
    norm_num at h12

/-- C7 (amended): at `theta = 2π` the double-excitation gate returns the
prepared state to a sign-adjusted (−1) copy of the original Hartree-Fock
configuration, and the evaluated energy is periodic in theta with period 2π:
for every Hamiltonian, reference bit vector and real theta,
`evaluate(ref, theta + 2π) = evaluate(ref, theta)`. -/
theorem gate_period_two_pi :
    doubleExcitation (2 * Real.pi) (basisVec hf) = -(basisVec hf) ∧
    ∀ (H : Ham) (ref : Fin 4 → Bool) (theta : ℝ),
      circuit_2 H ref (theta + 2 * Real.pi) = circuit_2 H ref theta :=
  ⟨doubleExcitation_two_pi_hf, circuit_2_periodic⟩

/-- C6: at `theta = 0` the prepared state is exactly the Hartree-Fock
reference state, hence the evaluated energy is the Hartree-Fock expectation
value `⟨HF|H|HF⟩`, for every Hamiltonian the dataset could supply. -/
theorem theta_zero_gives_hf_energy (H : Ham) :
    doubleExcitation 0 (basisVec hf) = basisVec hf ∧
    circuit_2 H hf 0 = expval H (basisVec hf) := by
  refine ⟨doubleExcitation_zero (basisVec hf), ?_⟩
  unfold circuit_2
  rw [doubleExcitation_zero]

lemma runE_error (gradFn : ℝ → ℝ) (s : ProgState) :
    ∀ n : ℕ, runE gradFn s (n + 1) = Except.error typeErrorMsg := by
  intro n
  induction n with
  | zero => rfl
  | succ k ih =>
      have hstep : runE gradFn s (k + 1 + 1)
          = match runE gradFn s (k + 1) with
            | Except.error e => Except.error e
            | Except.ok t => loopBodyE gradFn t := rfl
      rw [hstep, ih]

lemma runE_ok_eq_start (gradFn : ℝ → ℝ) (s : ProgState) (n : ℕ)
    (t : ProgState) (h : runE gradFn s n = Except.ok t) : t = s := by
  cases n with
  | zero =>
      have hs : Except.ok (ε := String) s = Except.ok t := h
      injection hs with h2
      exact h2.symm
  | succ k =>
      rw [runE_error] at h
      exact Except.noConfusion h

lemma completedTrace_nil (H0 : Ham) (hf0 : Fin 4 → Bool) (gradFn : ℝ → ℝ) :
    completedTrace H0 hf0 gradFn = [] := by
  unfold completedTrace
  have hfun : (fun n => (runE gradFn (initState H0 hf0) (n + 1)).toOption)
      = fun _ => (none : Option ProgState) :=
    funext fun n => by rw [runE_error]; rfl
  rw [hfun]
  simp

/-- C2: the claim evaluated on the faithfully modelled code.  Every run
raises the gradient call's TypeError during iteration 0, for every value of
the `conv_tol` constant, so the program completes zero of the
`max_iterations = 100` budgeted iterations: the run ends in the error, the
trace of completed iterations is empty, and its length is not
`max_iterations`. -/
theorem loop_crashes_iteration_zero (t : ℝ) (H0 : Ham) (hf0 : Fin 4 → Bool)
    (gradFn : ℝ → ℝ) :
    programRunE t H0 hf0 gradFn = Except.error typeErrorMsg ∧
    programRunE t H0 hf0 gradFn = programRunE conv_tol H0 hf0 gradFn ∧
    completedTrace H0 hf0 gradFn = [] ∧
    (completedTrace H0 hf0 gradFn).length ≠ max_iterations := by
  refine ⟨runE_error gradFn (initState H0 hf0) 99, rfl,
    completedTrace_nil H0 hf0 gradFn, ?_⟩
  rw [completedTrace_nil]
  decide

/-- C3: the claim evaluated on the faithfully modelled code.  No SGD update
ever executes: every iteration raises at the gradient call before the optax
update and `optax.apply_updates` can run, so any state the run ever reaches
still has the initial `theta = 0` -- theta is replaced zero times, not once
per iteration -- and the run with any nonzero iteration budget ends in the
TypeError. -/
theorem theta_update_never_runs (H0 : Ham) (hf0 : Fin 4 → Bool)
    (gradFn : ℝ → ℝ) :
    (∀ (n : ℕ) (s : ProgState),
      runE gradFn (initState H0 hf0) n = Except.ok s → s.theta = 0) ∧
    ∀ n : ℕ,
      runE gradFn (initState H0 hf0) (n + 1) = Except.error typeErrorMsg := by
  constructor
  · intro n s h
    rw [runE_ok_eq_start gradFn (initState H0 hf0) n s h]
    rfl
  · exact runE_error gradFn (initState H0 hf0)

/-- C5: the claim evaluated on the faithfully modelled code.  The qubit
count, Hamiltonian and reference bitstring are indeed never modified after
loading, and `theta` stays a single real scalar that nothing but the
optimizer could modify -- but the once-per-iteration update itself never
happens: every state the run reaches is the initial state (theta still 0),
because iteration 0 raises at the gradient call before the update. -/
theorem invariants_hold_update_never_runs (H0 : Ham) (hf0 : Fin 4 → Bool)
    (gradFn : ℝ → ℝ) :
    (∀ (n : ℕ) (s : ProgState),
      runE gradFn (initState H0 hf0) n = Except.ok s →
        s.H = H0 ∧ s.qubits = 4 ∧ s.hf_state = hf0 ∧ s.theta = 0) ∧
    ∀ n : ℕ,
      runE gradFn (initState H0 hf0) (n + 1) = Except.error typeErrorMsg := by
  constructor
  · intro n s h
    rw [runE_ok_eq_start gradFn (initState H0 hf0) n s h]
    exact ⟨rfl, rfl, rfl, rfl⟩
  · exact runE_error gradFn (initState H0 hf0)

/-- C9: determinism of the procedure -- any two runs of the loop started from
the script's initial state (same initial `theta = 0`, same gradient values)
produce identical trajectories of `theta` at every iteration count. -/
theorem run_deterministic (H0 : Ham) (hf0 : Fin 4 → Bool) (gradFn : ℝ → ℝ)
    (s1 s2 : ProgState) (h1 : s1 = initState H0 hf0)
    (h2 : s2 = initState H0 hf0) (n : ℕ) :
    (runFrom gradFn s1 n).theta = (runFrom gradFn s2 n).theta := by
  subst h1; subst h2; rfl

/-- Witness for C9 at a concrete Hamiltonian, reference state, gradient
function and iteration count. -/
theorem run_deterministic_check :
    initState 0 hf = initState 0 hf ∧
    (runFrom (fun t => t) (initState 0 hf) 100).theta =
      (runFrom (fun t => t) (initState 0 hf) 100).theta :=
  ⟨rfl, run_deterministic 0 hf (fun t => t) (initState 0 hf) (initState 0 hf)
    rfl rfl 100⟩

/-- C10: the list `angle` is initialized to `[theta]` with the initial
`theta = 0.0` and is never appended to, mutated or read by the loop: after
any number of iterations it still holds exactly that one initial element. -/
theorem angle_list_untouched (H0 : Ham) (hf0 : Fin 4 → Bool)
    (gradFn : ℝ → ℝ) (n : ℕ) :
    (initState H0 hf0).angle = [(initState H0 hf0).theta] ∧
    (runFor H0 hf0 gradFn n).angle = [(0 : ℝ)] ∧
    ((runFor H0 hf0 gradFn n).angle).length = 1 := by
  have key : ∀ m, (runFor H0 hf0 gradFn m).angle = [(0 : ℝ)] := by
    intro m
    induction m with
    | zero => rfl
    | succ k ih => exact ih
  exact ⟨rfl, key n, by rw [key n]; rfl⟩

end Vqeac
